import Mathlib

/-!
# Verification of the nba_scanner fee / break-even / strike-selection core

Shallow embedding of the numeric core of the `nba_scanner` repository:

* `src/pricing/conversion.py` — American odds ↔ cents conversions;
* `src/pricing/fees.py` — maker fee formula;
* `src/data_build/top_of_book.py` — orderbook top-of-book reader and
  maker break-even probabilities;
* `src/kalshi_top_of_book_probs.py` — YES-ask reader and posting break-even;
* `src/spreads/builder.py`, `src/totals/builder.py` — strike selection.

Python `float` arithmetic is embedded as exact rational arithmetic (`ℚ`),
Python `int` as `ℤ`, Python `None` as `Option.none`.  Python's `round`
(round half to even) is embedded explicitly as `pyRound`.
-/

namespace NbaScanner

/-- Python 3 `round(x)` on a real value: round half to even.
Expressed via the floor and fractional part; on a tie (fraction exactly 1/2)
round to the even neighbour. -/
def pyRound (q : ℚ) : ℤ :=
  let f := ⌊q⌋
  let r := q - f
  if r < 1/2 then f
  else if 1/2 < r then f + 1
  else if f % 2 = 0 then f else f + 1

/-! ## Odds conversion (`src/pricing/conversion.py`, `src/ad_hoc/show_unabated_moneylines.py`) -/

/-- `american_odds_to_probability` from `src/ad_hoc/show_unabated_moneylines.py`:
favorite `p = (-odds)/((-odds)+100)`, underdog `p = 100/(odds+100)`. -/
def american_odds_to_probability (american_odds : ℤ) : ℚ :=
  if american_odds < 0 then
    ((-american_odds : ℤ) : ℚ) / (((-american_odds : ℤ) : ℚ) + 100)
  else
    100 / ((american_odds : ℚ) + 100)

/-- The probability→American-odds rounding formula that forms the core of
`cents_to_american` (`src/pricing/conversion.py`), applied to an exact
probability `P` instead of a rounded price-in-cents. -/
def prob_to_american (P : ℚ) : ℤ :=
  if P ≥ 1/2 then pyRound (-100 * P / (1 - P))
  else pyRound (100 * (1 - P) / P)

/-- `cents_to_american` from `src/pricing/conversion.py`: returns `0` for a
price outside `(0,100)`, otherwise rounds `±100·P/(1-P)`-style odds. -/
def cents_to_american (price_cents : ℤ) : ℤ :=
  if price_cents ≤ 0 ∨ price_cents ≥ 100 then 0
  else prob_to_american ((price_cents : ℚ) / 100)

/-- `american_to_cents` from `src/pricing/conversion.py`:
`round(p * 100)` where `p` is the implied probability of the odds. -/
def american_to_cents (odds : ℤ) : ℤ :=
  let p : ℚ :=
    if odds < 0 then ((-odds : ℤ) : ℚ) / (((-odds : ℤ) : ℚ) + 100)
    else 100 / ((odds : ℚ) + 100)
  pyRound (p * 100)

/-! ## Fee model (`src/pricing/fees.py`) -/

/-- `maker_fee_cents` from `src/pricing/fees.py`:
`ceil(0.0175 * contracts * P * (1 - P) * 100)` cents, `P = price_cents/100`. -/
def maker_fee_cents (price_cents : ℤ) (contracts : ℤ := 1) : ℤ :=
  let P : ℚ := (price_cents : ℚ) / 100
  let raw_fee_dollars : ℚ := 0.0175 * (contracts : ℚ) * P * (1 - P)
  ⌈raw_fee_dollars * 100⌉

/-! ## Break-even probabilities (`src/data_build/top_of_book.py`,
`src/kalshi_top_of_book_probs.py`) -/

/-- `yes_break_even_prob` from `src/data_build/top_of_book.py`:
`None` for a price outside `(0,100)`; otherwise the maker fee for 1000
contracts is divided back per contract, added to the price, divided by 100,
and clamped to `[0,1]`. -/
def yes_break_even_prob (yes_px_cents : ℤ) : Option ℚ :=
  if yes_px_cents ≤ 0 ∨ yes_px_cents ≥ 100 then none
  else
    let C : ℤ := 1000
    let fee_total_cents := maker_fee_cents yes_px_cents C
    let fee_per_contract_cents : ℚ := (fee_total_cents : ℚ) / (C : ℚ)
    let after_fee_cents : ℚ := (yes_px_cents : ℚ) + fee_per_contract_cents
    let p_win_be : ℚ := after_fee_cents / 100
    if p_win_be < 0 then some 0
    else if p_win_be > 1 then some 1
    else some p_win_be

/-- `no_break_even_prob` from `src/data_build/top_of_book.py`:
textually identical computation to `yes_break_even_prob`, applied
to a NO price. -/
def no_break_even_prob (no_px_cents : ℤ) : Option ℚ :=
  if no_px_cents ≤ 0 ∨ no_px_cents ≥ 100 then none
  else
    let C : ℤ := 1000
    let fee_total_cents := maker_fee_cents no_px_cents C
    let fee_per_contract_cents : ℚ := (fee_total_cents : ℚ) / (C : ℚ)
    let after_fee_cents : ℚ := (no_px_cents : ℚ) + fee_per_contract_cents
    let p_no_win_be : ℚ := after_fee_cents / 100
    if p_no_win_be < 0 then some 0
    else if p_no_win_be > 1 then some 1
    else some p_no_win_be

/-- `maker_post_break_even_prob` from `src/kalshi_top_of_book_probs.py`:
`p / (1 - fee_on_win)` with the one-contract maker fee, `None` outside
`(0,100)` or when `fee_on_win ≥ 1`, clamped to `[0,1]`. -/
def maker_post_break_even_prob (price_cents : ℤ) : Option ℚ :=
  if price_cents ≤ 0 ∨ price_cents ≥ 100 then none
  else
    let p : ℚ := (price_cents : ℚ) / 100
    let fee_on_win : ℚ := (maker_fee_cents price_cents 1 : ℚ) / 100
    if fee_on_win ≥ 1 then none
    else
      let p_win_be : ℚ := p / (1 - fee_on_win)
      if p_win_be < 0 then some 0
      else if p_win_be > 1 then some 1
      else some p_win_be

/-! ## Orderbook reader

A raw Kalshi price ladder is a list of rows, each row a list of integers;
rows with fewer than two fields are skipped by the readers
(`isinstance(bid, list) and len(bid) >= 2` in the source). -/

/-- Python's `str.upper()`, character by character (kernel-computable
counterpart of `String.toUpper`, which the embedded code applies to pure
ASCII side labels and tickers). -/
def py_upper (s : String) : String := String.mk (s.data.map Char.toUpper)

/-- Python's `str.lower()`, character by character. -/
def py_lower (s : String) : String := String.mk (s.data.map Char.toLower)

/-- One row of a raw price ladder (`[price_cents, qty, ...]`). -/
abbrev BidEntry := List ℤ

/-- A Kalshi orderbook: the `"yes"` and `"no"` bid ladders.
A missing or empty ladder is the empty list. -/
structure Orderbook where
  yes : List BidEntry
  no : List BidEntry

/-- The maximum price over the valid (length ≥ 2) rows of a ladder, or `none`
if there is no valid row: the value tracked by the `for bid in ...` loops of
`get_yes_bid_top_and_liquidity` / `get_no_bid_top_and_liquidity`. -/
def ladder_top : List BidEntry → Option ℤ
  | [] => none
  | (price :: _ :: _) :: rest =>
    match ladder_top rest with
    | none => some price
    | some t => some (max price t)
  | _ :: rest => ladder_top rest

/-- The per-price accumulated quantity (`bids_by_price` dict in the source,
read through `dict.get(price, 0)`): total quantity of all valid rows at a
given price, `0` for a price with no rows. -/
def ladder_by_price : List BidEntry → ℤ → ℤ
  | [], _ => 0
  | (price :: qty :: _) :: rest, p =>
    (if p = price then qty else 0) + ladder_by_price rest p
  | _ :: rest, p => ladder_by_price rest p

/-- `get_yes_bid_top_and_liquidity` from `src/data_build/top_of_book.py`
(also duplicated in `src/spreads/builder.py`): top YES bid price, the
accumulated liquidity at that price, and the price→quantity map. -/
def get_yes_bid_top_and_liquidity (orderbook : Orderbook) :
    Option ℤ × Option ℤ × (ℤ → ℤ) :=
  let by_price := ladder_by_price orderbook.yes
  match ladder_top orderbook.yes with
  | none => (none, none, by_price)
  | some t => (some t, some (by_price t), by_price)

/-- `get_no_bid_top_and_liquidity` from `src/data_build/top_of_book.py`
(also duplicated in `src/spreads/builder.py`): same reader on the NO ladder. -/
def get_no_bid_top_and_liquidity (orderbook : Orderbook) :
    Option ℤ × Option ℤ × (ℤ → ℤ) :=
  let by_price := ladder_by_price orderbook.no
  match ladder_top orderbook.no with
  | none => (none, none, by_price)
  | some t => (some t, some (by_price t), by_price)

/-- `get_yes_ask_prices_and_liquidity` from `src/kalshi_top_of_book_probs.py`:
best YES ask `100 - max(NO bid)`, inside ask one cent lower, and the
accumulated NO-bid liquidity at the corresponding levels.  (The source guards
`best_ask_liq` with the truthiness of the max NO bid price, hence the
`t ≠ 0` test.) -/
def get_yes_ask_prices_and_liquidity (orderbook : Orderbook) :
    Option ℤ × Option ℤ × Option ℤ × Option ℤ :=
  match ladder_top orderbook.no with
  | none => (none, none, none, none)
  | some t =>
    let by_price := ladder_by_price orderbook.no
    let best_yes_ask_cents := 100 - t
    let best_ask_liq : Option ℤ := if t ≠ 0 then some (by_price t) else none
    let inside_yes_ask_cents : Option ℤ :=
      if best_yes_ask_cents ≥ 2 then some (best_yes_ask_cents - 1) else none
    let inside_ask_liq : Option ℤ :=
      match inside_yes_ask_cents with
      | some i => some (by_price (100 - i))
      | none => none
    (some best_yes_ask_cents, inside_yes_ask_cents, best_ask_liq, inside_ask_liq)

/-- Result record of `get_market_yes_exposure_data`. -/
structure ExposureData where
  yes_bid_top_c : Option ℤ
  yes_bid_top_p1_c : Option ℤ
  yes_be_top : Option ℚ
  yes_be_topm1 : Option ℚ
  yes_bid_top_liq : Option ℤ
  yes_bid_top_p1_liq : Option ℤ
  error : Option String

/-- The post-fetch computation of `get_market_yes_exposure_data` from
`src/data_build/top_of_book.py` (the network fetch of the orderbook is
treated as the function's input): queue-jump price `top + 1` only when
`top < 99`, queue-jump liquidity always `None`, break-evens via
`yes_break_even_prob`. -/
def get_market_yes_exposure_data (orderbook : Orderbook) : ExposureData :=
  match get_yes_bid_top_and_liquidity orderbook with
  | (none, _, _) =>
    { yes_bid_top_c := none, yes_bid_top_p1_c := none, yes_be_top := none
      yes_be_topm1 := none, yes_bid_top_liq := none, yes_bid_top_p1_liq := none
      error := some "No YES bids found" }
  | (some yes_bid_top_c, yes_bid_top_liq, _) =>
    let yes_bid_top_p1_c : Option ℤ :=
      if yes_bid_top_c < 99 then some (yes_bid_top_c + 1) else none
    { yes_bid_top_c := some yes_bid_top_c
      yes_bid_top_p1_c := yes_bid_top_p1_c
      yes_be_top := yes_break_even_prob yes_bid_top_c
      yes_be_topm1 := yes_bid_top_p1_c.bind yes_break_even_prob
      yes_bid_top_liq := yes_bid_top_liq
      yes_bid_top_p1_liq := none
      error := none }

/-- Result record of `get_spread_orderbook_data`. -/
structure SpreadTobData where
  tob_bid_cents : Option ℤ
  tob_effective_prob : Option ℚ
  tob_liq : Option ℤ
  tob_p1_bid_cents : Option ℤ
  tob_p1_effective_prob : Option ℚ
  tob_p1_liq : Option ℤ
  crossed : Option Bool
  error : Option String

/-- The post-fetch computation of `get_spread_orderbook_data` from
`src/spreads/builder.py`: top bid of the requested side, implied opposite
ask `100 - opposite top bid`, queue-jump `top + 1` only when `top < 99`,
discarded and flagged `crossed` when it would meet or exceed the implied
ask; queue-jump liquidity always `None`. -/
def get_spread_orderbook_data (orderbook : Orderbook) (side_to_trade : String) :
    SpreadTobData :=
  if py_upper side_to_trade = "YES" ∨ py_upper side_to_trade = "NO" then
    let bid := if py_upper side_to_trade = "YES" then
        get_yes_bid_top_and_liquidity orderbook
      else
        get_no_bid_top_and_liquidity orderbook
    let ask_top_c : Option ℤ :=
      if py_upper side_to_trade = "YES" then
        ((get_no_bid_top_and_liquidity orderbook).1).map (fun no_top => 100 - no_top)
      else
        ((get_yes_bid_top_and_liquidity orderbook).1).map (fun yes_top => 100 - yes_top)
    match bid with
    | (none, _, _) =>
      { tob_bid_cents := none, tob_effective_prob := none, tob_liq := none
        tob_p1_bid_cents := none, tob_p1_effective_prob := none, tob_p1_liq := none
        crossed := none, error := some ("No " ++ side_to_trade ++ " bids found") }
    | (some bid_top_c, bid_top_liq, _) =>
      let p1 : Option ℤ := if bid_top_c < 99 then some (bid_top_c + 1) else none
      let crossed_p1 : Bool × Option ℤ :=
        match p1, ask_top_c with
        | some p, some a => if p ≥ a then (true, none) else (false, some p)
        | _, _ => (false, p1)
      { tob_bid_cents := some bid_top_c
        tob_effective_prob := yes_break_even_prob bid_top_c
        tob_liq := bid_top_liq
        tob_p1_bid_cents := crossed_p1.2
        tob_p1_effective_prob := crossed_p1.2.bind yes_break_even_prob
        tob_p1_liq := none
        crossed := some crossed_p1.1
        error := none }
  else
    { tob_bid_cents := none, tob_effective_prob := none, tob_liq := none
      tob_p1_bid_cents := none, tob_p1_effective_prob := none, tob_p1_liq := none
      crossed := none, error := some ("Invalid side_to_trade: " ++ side_to_trade) }

/-! ## Strike selector (`src/spreads/builder.py`, `src/totals/builder.py`) -/

/-- A parsed spread market row as built by `collect_spread_markets`
(`src/spreads/builder.py`): ticker, title, parsed strike (may be missing),
and the market team code (may be missing). -/
structure SpreadMarket where
  ticker : String
  title : String
  parsed_strike : Option ℚ
  market_team_code : Option String
deriving DecidableEq

/-- A parsed totals market row as built in `src/totals/builder.py`:
ticker, title, parsed strike (may be missing) and direction label. -/
structure TotalsMarket where
  ticker : String
  title : String
  parsed_strike : Option ℚ
  direction : String
deriving DecidableEq

/-- The sort key comparison used by both strike selectors:
Python's `markets_with_distance.sort(key=lambda x: (x[0], x[1]))`,
i.e. lexicographic order on `(distance, strike)`. -/
def key_le {M : Type} (a b : ℚ × ℚ × M) : Bool :=
  decide (a.1 < b.1 ∨ (a.1 = b.1 ∧ a.2.1 ≤ b.2.1))

/-- The `markets_with_distance` list built by the selectors: each candidate
with a parseable strike is paired with its distance to the target
(candidates without a parseable strike are skipped via `continue`). -/
def markets_with_distance {M : Type} (strike? : M → Option ℚ) (target : ℚ)
    (ms : List M) : List (ℚ × ℚ × M) :=
  ms.filterMap (fun m => (strike? m).map (fun s => (|s - target|, s, m)))

/-- The candidate filter of `select_closest_over_strikes`
(`src/totals/builder.py`): keep markets whose direction is `"over"`,
falling back to all markets when none is labeled `"over"`. -/
def over_candidates (available_markets : List TotalsMarket) : List TotalsMarket :=
  let over_markets := available_markets.filter
    (fun m => py_lower m.direction = "over")
  if over_markets.isEmpty then available_markets else over_markets

/-- `select_closest_over_strikes` from `src/totals/builder.py`:
the `count` candidates closest to the canonical total, sorted by
`(distance, strike)` with Python's stable sort (embedded as `mergeSort`). -/
def select_closest_over_strikes (canonical_total : ℚ)
    (available_markets : List TotalsMarket) (count : ℕ := 2) : List TotalsMarket :=
  if available_markets.isEmpty then []
  else
    (((markets_with_distance TotalsMarket.parsed_strike canonical_total
        (over_candidates available_markets)).mergeSort key_le).take count).map
      (fun x => x.2.2)

/-- `select_closest_strikes_for_team_spread` from `src/spreads/builder.py`:
favorite (`team_spread < 0`) routes to the team's own market and the YES
side, otherwise to the opponent's market and the NO side; then the `count`
closest strikes to `|team_spread|`, sorted by `(distance, strike)`. -/
def select_closest_strikes_for_team_spread (team_spread : ℚ)
    (team_code opponent_code : String) (spread_markets : List SpreadMarket)
    (count : ℕ := 2) : List (SpreadMarket × String) :=
  let abs_spread := |team_spread|
  let target_market_team_code :=
    if team_spread < 0 then team_code else opponent_code
  let side_to_trade := if team_spread < 0 then "YES" else "NO"
  let candidate_markets := spread_markets.filter
    (fun m => m.market_team_code = some target_market_team_code)
  let sorted := (markets_with_distance SpreadMarket.parsed_strike abs_spread
    candidate_markets).mergeSort key_le
  (sorted.take count).map (fun x => (x.2.2, side_to_trade))

/-- `map_team_spread_to_market_and_side` from `src/spreads/builder.py`:
same routing and sorting as `select_closest_strikes_for_team_spread`, but
returning only the single closest market (or `none`). -/
def map_team_spread_to_market_and_side (team_spread : ℚ)
    (team_code opponent_code : String) (spread_markets : List SpreadMarket) :
    Option SpreadMarket × String :=
  let abs_spread := |team_spread|
  let target_market_team_code :=
    if team_spread < 0 then team_code else opponent_code
  let side_to_trade := if team_spread < 0 then "YES" else "NO"
  let candidate_markets := spread_markets.filter
    (fun m => m.market_team_code = some target_market_team_code)
  let sorted := (markets_with_distance SpreadMarket.parsed_strike abs_spread
    candidate_markets).mergeSort key_le
  match sorted.head? with
  | none => (none, side_to_trade)
  | some x => (some x.2.2, side_to_trade)

/-- Total quantity over the valid ladder rows at one price: the reference
value for liquidity aggregation ("summed quantity at each price level"). -/
def qty_sum_at (bids : List BidEntry) (p : ℤ) : ℤ :=
  (bids.filterMap (fun bid =>
    match bid with
    | price :: qty :: _ => if p = price then some qty else none
    | _ => none)).sum

/-- Demo totals market with strike 6.0 (for the tie-break example). -/
def demo_over_6 : TotalsMarket := ⟨"T6", "Over 6", some 6, "over"⟩

/-- Demo totals market with strike 6.5 (for the tie-break example). -/
def demo_over_65 : TotalsMarket := ⟨"T65", "Over 6.5", some (13/2), "over"⟩

/-- Demo totals market with strike 7.0 (for the tie-break example). -/
def demo_over_7 : TotalsMarket := ⟨"T7", "Over 7", some 7, "over"⟩

/-- The maker fee formula rewritten over a common denominator:
`0.0175 · C · (p/100) · (1 - p/100) · 100 = 7·C·p·(100-p)/40000`. -/
lemma maker_fee_cents_eq (price_cents contracts : ℤ) :
    maker_fee_cents price_cents contracts =
      ⌈(7 * (contracts : ℚ) * (price_cents : ℚ) * (100 - (price_cents : ℚ))) / 40000⌉ := by
  unfold maker_fee_cents
  rw [show (0.0175 : ℚ) = 7 / 400 by norm_num]
  ring_nf

/-- Python's `round` is the identity on integers. -/
lemma pyRound_intCast (n : ℤ) : pyRound ((n : ℚ)) = n := by
  unfold pyRound
  norm_num

/-- Python's `round` never rounds below the floor. -/
lemma floor_le_pyRound (q : ℚ) : ⌊q⌋ ≤ pyRound q := by
  simp only [pyRound]
  split_ifs <;> omega

/-- Python's `round` never rounds above the ceiling. -/
lemma pyRound_le_ceil (q : ℚ) : pyRound q ≤ ⌈q⌉ := by
  simp only [pyRound]
  have h1 : ⌊q⌋ ≤ ⌈q⌉ := Int.floor_le_ceil q
  have h2 : (1:ℚ)/2 ≤ q - ⌊q⌋ → ⌊q⌋ + 1 ≤ ⌈q⌉ := by
    intro h
    have hlt : (⌊q⌋ : ℚ) < q := by linarith
    have := Int.lt_ceil.mpr hlt
    omega
  split_ifs with hc1 hc2 hc3
  · exact h1
  · exact h2 (by linarith)
  · exact h1
  · exact h2 (by linarith)

/-- The `(distance, strike)` comparison is transitive. -/
lemma key_le_trans {M : Type} (a b c : ℚ × ℚ × M) :
    key_le a b → key_le b c → key_le a c := by
  simp only [key_le, decide_eq_true_eq]
  rintro (h1 | ⟨h1, h2⟩) (h3 | ⟨h3, h4⟩)
  · exact Or.inl (lt_trans h1 h3)
  · exact Or.inl (h3 ▸ h1)
  · exact Or.inl (h1 ▸ h3)
  · exact Or.inr ⟨h1.trans h3, le_trans h2 h4⟩

/-- The `(distance, strike)` comparison is total. -/
lemma key_le_total {M : Type} (a b : ℚ × ℚ × M) :
    key_le a b || key_le b a := by
  simp only [key_le, Bool.or_eq_true, decide_eq_true_eq]
  rcases lt_trichotomy a.1 b.1 with h | h | h
  · exact Or.inl (Or.inl h)
  · rcases le_total a.2.1 b.2.1 with h2 | h2
    · exact Or.inl (Or.inr ⟨h, h2⟩)
    · exact Or.inr (Or.inr ⟨h.symm, h2⟩)
  · exact Or.inr (Or.inl h)

/-- The accumulated per-price dictionary of the ladder readers holds, at
every price, the summed quantity of all valid rows at that price. -/
lemma ladder_by_price_eq (l : List BidEntry) (p : ℤ) :
    ladder_by_price l p = qty_sum_at l p := by
  induction l with
  | nil => rfl
  | cons bid rest ih =>
    rcases bid with _ | ⟨price, _ | ⟨qty, tail⟩⟩
    · simpa [ladder_by_price, qty_sum_at, List.filterMap_cons] using ih
    · simpa [ladder_by_price, qty_sum_at, List.filterMap_cons] using ih
    · simp only [ladder_by_price, qty_sum_at, List.filterMap_cons] at *
      split_ifs with h
      · simp [List.sum_cons, ih]
      · simpa using ih

/-- Every candidate chosen by the over-filter comes from the input list. -/
lemma over_candidates_mem {m : TotalsMarket} {ms : List TotalsMarket}
    (h : m ∈ over_candidates ms) : m ∈ ms := by
  simp only [over_candidates] at h
  split_ifs at h
  · exact h
  · exact (List.mem_filter.mp h).1

/-- When every market is labeled `"over"`, the over-filter keeps them all. -/
lemma over_candidates_all_over (ms : List TotalsMarket)
    (h : ∀ m ∈ ms, py_lower m.direction = "over") : over_candidates ms = ms := by
  simp only [over_candidates]
  have hf : ms.filter (fun m => py_lower m.direction = "over") = ms :=
    List.filter_eq_self.mpr (by intro m hm; simpa using h m hm)
  rw [hf]
  split_ifs <;> rfl

/-- Every pair returned by the spread strike selector carries the side label
determined by the spread's sign, and its market passed the
`market_team_code` filter for the routed team. -/
lemma select_mem_routing (ts : ℚ) (tc oc : String) (ms : List SpreadMarket)
    (count : ℕ) :
    ∀ x ∈ select_closest_strikes_for_team_spread ts tc oc ms count,
      x.1.market_team_code = some (if ts < 0 then tc else oc) ∧
      x.2 = (if ts < 0 then "YES" else "NO") := by
  intro x hx
  simp only [select_closest_strikes_for_team_spread] at hx
  rw [List.mem_map] at hx
  obtain ⟨trip, htake, rfl⟩ := hx
  have htrip : trip ∈ (markets_with_distance SpreadMarket.parsed_strike |ts|
      (ms.filter (fun m => m.market_team_code =
        some (if ts < 0 then tc else oc)))).mergeSort key_le :=
    List.mem_of_mem_take htake
  rw [List.mem_mergeSort] at htrip
  simp only [markets_with_distance, List.mem_filterMap] at htrip
  obtain ⟨m, hm, hmap⟩ := htrip
  rcases hs : m.parsed_strike with _ | s
  · rw [hs] at hmap
    simp at hmap
  · rw [hs] at hmap
    simp only [Option.map_some', Option.some_inj] at hmap
    subst hmap
    exact ⟨by simpa using (List.mem_filter.mp hm).2, rfl⟩

/-- The single-market router returns the side determined by the spread's
sign, and any returned market passed the `market_team_code` filter. -/
lemma map_routing (ts : ℚ) (tc oc : String) (ms : List SpreadMarket) :
    (map_team_spread_to_market_and_side ts tc oc ms).2 =
      (if ts < 0 then "YES" else "NO") ∧
    (∀ m, (map_team_spread_to_market_and_side ts tc oc ms).1 = some m →
      m.market_team_code = some (if ts < 0 then tc else oc)) := by
  constructor
  · simp only [map_team_spread_to_market_and_side]
    rcases hh : (List.mergeSort (markets_with_distance SpreadMarket.parsed_strike
        |ts| (ms.filter (fun m => m.market_team_code =
          some (if ts < 0 then tc else oc)))) key_le).head? with _ | x <;>
      rfl
  · intro m hm
    simp only [map_team_spread_to_market_and_side] at hm
    rcases hh : (List.mergeSort (markets_with_distance SpreadMarket.parsed_strike
        |ts| (ms.filter (fun mk => mk.market_team_code =
          some (if ts < 0 then tc else oc)))) key_le).head? with _ | x
    · rw [hh] at hm
      simp at hm
    · rw [hh] at hm
      simp only [Option.some_inj] at hm
      subst hm
      have hx : x ∈ (List.mergeSort (markets_with_distance
          SpreadMarket.parsed_strike |ts| (ms.filter (fun mk =>
            mk.market_team_code = some (if ts < 0 then tc else oc)))) key_le) :=
        List.mem_of_mem_head? (by rw [hh]; exact rfl)
      rw [List.mem_mergeSort] at hx
      simp only [markets_with_distance, List.mem_filterMap] at hx
      obtain ⟨mk, hmk, hmap⟩ := hx
      rcases hs : mk.parsed_strike with _ | s
      · rw [hs] at hmap
        simp at hmap
      · rw [hs] at hmap
        simp only [Option.map_some', Option.some_inj] at hmap
        subst hmap
        simpa using (List.mem_filter.mp hmk).2

/-! ## Claim theorems -/

/-- C1 (counterexample): the claim computes the maker fee for 1000 contracts
at price 56 as `ceil(4.312) = 5` cents and the break-even probability as
`0.56005`.  The code's fee is `ceil(0.0175·1000·0.56·0.44·100) = ceil(431.2)
= 432` cents, so `yes_break_even_prob 56` is `0.56432`, not `0.56005`. -/
theorem yes_break_even_prob_56_counterexample :
    maker_fee_cents 56 1000 = 432 ∧
    yes_break_even_prob 56 = some (56432/100000) ∧
    yes_break_even_prob 56 ≠ some (56005/100000) := by
  have hfee : maker_fee_cents 56 1000 = 432 := by
    rw [maker_fee_cents_eq]; norm_num [Int.ceil_eq_iff]
  have hval : yes_break_even_prob 56 = some (56432/100000) := by
    simp only [yes_break_even_prob, hfee]
    norm_num
  refine ⟨hfee, hval, ?_⟩
  rw [hval]
  simp only [ne_eq, Option.some_inj]
  norm_num

/-- C1 (amended): for price-in-cents 56, the maker fee at the reference
contract count 1000 totals 432 cents (`ceil(431.2)`), the per-contract fee
is 0.432 cents, and the break-even probability is `(56 + 0.432)/100 =
0.56432`. -/
theorem yes_break_even_prob_56_eval :
    maker_fee_cents 56 1000 = 432 ∧
    yes_break_even_prob 56 = some ((56 + 432/1000)/100) := by
  have hfee : maker_fee_cents 56 1000 = 432 := by
    rw [maker_fee_cents_eq]; norm_num [Int.ceil_eq_iff]
  refine ⟨hfee, ?_⟩
  simp only [yes_break_even_prob, hfee]
  norm_num

/-- C4: `yes_break_even_prob` and `no_break_even_prob` return `none` exactly
when the price is at most 0 or at least 100 (they are total functions, so
they never raise), and for a price strictly inside `(0,100)` they return a
value in `[0,1]`. -/
theorem break_even_prob_sentinel_and_clamp :
    ∀ price_cents : ℤ,
      (yes_break_even_prob price_cents = none ↔
        price_cents ≤ 0 ∨ 100 ≤ price_cents) ∧
      (no_break_even_prob price_cents = none ↔
        price_cents ≤ 0 ∨ 100 ≤ price_cents) ∧
      (0 < price_cents → price_cents < 100 →
        (∃ q, yes_break_even_prob price_cents = some q ∧ 0 ≤ q ∧ q ≤ 1) ∧
        (∃ q, no_break_even_prob price_cents = some q ∧ 0 ≤ q ∧ q ≤ 1)) := by
  have hno_eq : no_break_even_prob = yes_break_even_prob := rfl
  intro pc
  have hiff : yes_break_even_prob pc = none ↔ pc ≤ 0 ∨ 100 ≤ pc := by
    simp only [yes_break_even_prob]
    by_cases h : pc ≤ 0 ∨ pc ≥ 100
    · rw [if_pos h]
      simpa using h
    · rw [if_neg h]
      split_ifs <;> simpa using h
  have hsome : 0 < pc → pc < 100 →
      ∃ q, yes_break_even_prob pc = some q ∧ 0 ≤ q ∧ q ≤ 1 := by
    intro h0 h100
    simp only [yes_break_even_prob]
    rw [if_neg (by omega)]
    split_ifs with h1 h2
    · exact ⟨0, rfl, le_refl 0, by norm_num⟩
    · exact ⟨1, rfl, by norm_num, le_refl 1⟩
    · exact ⟨_, rfl, by linarith [not_lt.mp h1], by linarith [not_lt.mp h2]⟩
  exact ⟨hiff, hno_eq ▸ hiff, fun h0 h100 => ⟨hsome h0 h100, hno_eq ▸ hsome h0 h100⟩⟩

/-- C4 (witness): the sentinel at a concrete out-of-range price. -/
theorem break_even_prob_sentinel_and_clamp_witness :
    yes_break_even_prob (-5) = none :=
  (break_even_prob_sentinel_and_clamp (-5)).1.mpr (by norm_num)

/-- C10: for every price strictly inside `(0,100)` the one-contract maker fee
is exactly 1 cent (`ceil` of a positive quantity at most 0.4375), so the
`fee_on_win ≥ 1.0` branch of `maker_post_break_even_prob` can never fire and
the function returns `some ((p/100)/0.99) = some (p/99)`, a value already in
`[0,1]` which the clamp never alters. -/
theorem maker_fee_one_contract_and_post_break_even :
    ∀ price_cents : ℤ, 0 < price_cents → price_cents < 100 →
      maker_fee_cents price_cents 1 = 1 ∧
      maker_post_break_even_prob price_cents =
        some (((price_cents : ℚ) / 100) / (1 - 1/100)) ∧
      ((price_cents : ℚ) / 100) / (1 - 1/100) = (price_cents : ℚ) / 99 ∧
      0 ≤ (price_cents : ℚ) / 99 ∧ (price_cents : ℚ) / 99 ≤ 1 := by
  intro pc h0 h100
  have hpQ : (0:ℚ) < (pc:ℚ) := by exact_mod_cast h0
  have hpQ' : ((pc:ℚ)) < 100 := by exact_mod_cast h100
  have hfee : maker_fee_cents pc 1 = 1 := by
    rw [maker_fee_cents_eq]
    rw [Int.ceil_eq_iff]
    constructor
    · push_cast
      nlinarith
    · push_cast
      nlinarith [sq_nonneg ((pc:ℚ) - 50)]
  have heq' : ((pc:ℚ)/100)/((99:ℚ)/100) = (pc:ℚ)/99 := by
    field_simp
  have heq : ((pc:ℚ)/100)/(1 - (1:ℚ)/100) = (pc:ℚ)/99 := by
    rw [show (1 - (1:ℚ)/100) = 99/100 by norm_num]
    exact heq'
  have hpc99 : (pc:ℚ) ≤ 99 := by exact_mod_cast (by omega : pc ≤ (99:ℤ))
  have hle : (pc:ℚ)/99 ≤ 1 := by
    rw [div_le_one (by norm_num)]
    exact hpc99
  have h0le : 0 ≤ (pc:ℚ)/99 := by positivity
  refine ⟨hfee, ?_, heq, h0le, hle⟩
  simp only [maker_post_break_even_prob, hfee]
  rw [if_neg (by omega)]
  norm_num
  rw [if_neg (by rw [not_lt]; positivity),
    if_neg (by rw [not_lt, heq']; exact hle)]

/-- C10 (witness): the one-contract fee and posting break-even at price 56. -/
theorem maker_fee_one_contract_and_post_break_even_witness :
    maker_fee_cents 56 1 = 1 ∧
    maker_post_break_even_prob 56 = some (((56:ℤ) : ℚ) / 100 / (1 - 1/100)) := by
  have h := maker_fee_one_contract_and_post_break_even 56 (by norm_num) (by norm_num)
  exact ⟨h.1, h.2.1⟩

/-- C9 (counterexample): the claim says `american_to_cents` returns `0` or a
"no result" sentinel when the implied probability is at the 0/100 boundary;
for `odds = 0` the probability is `100/(0+100) = 1` (the 100 boundary), yet
the code returns `100`, and likewise `100` for extreme negative odds. -/
theorem american_to_cents_boundary_counterexample :
    american_to_cents 0 = 100 ∧ (100 : ℤ) ≠ 0 ∧
    american_to_cents (-100000) = 100 := by
  refine ⟨?_, by norm_num, ?_⟩
  · unfold american_to_cents pyRound
    norm_num
  · unfold american_to_cents pyRound
    norm_num

/-- C9 (amended): `american_to_cents` returns `round(probability · 100)` with
no explicit clamp and no boundary sentinel; the result always lies in
`[0,100]` by arithmetic, reaching `0` for extreme positive odds but `100`
(not `0`, not a sentinel) for odds `0` or extreme negative odds. -/
theorem american_to_cents_round_and_bounds :
    (∀ odds : ℤ,
      american_to_cents odds = pyRound (american_odds_to_probability odds * 100) ∧
      0 ≤ american_to_cents odds ∧ american_to_cents odds ≤ 100) ∧
    american_to_cents 100000 = 0 ∧ american_to_cents 0 = 100 := by
  constructor
  · intro odds
    have hdef : american_to_cents odds =
        pyRound (american_odds_to_probability odds * 100) := rfl
    have hp0 : 0 < american_odds_to_probability odds := by
      unfold american_odds_to_probability
      split_ifs with h
      · have ha : (0:ℚ) < ((-odds : ℤ) : ℚ) := by
          exact_mod_cast (by omega : (0:ℤ) < -odds)
        exact div_pos ha (by linarith)
      · have ha : (0:ℚ) ≤ ((odds : ℤ) : ℚ) := by
          exact_mod_cast (by omega : (0:ℤ) ≤ odds)
        exact div_pos (by norm_num) (by linarith)
    have hp1 : american_odds_to_probability odds ≤ 1 := by
      unfold american_odds_to_probability
      split_ifs with h
      · have ha : (0:ℚ) < ((-odds : ℤ) : ℚ) := by
          exact_mod_cast (by omega : (0:ℤ) < -odds)
        rw [div_le_one (by linarith)]
        linarith
      · have ha : (0:ℚ) ≤ ((odds : ℤ) : ℚ) := by
          exact_mod_cast (by omega : (0:ℤ) ≤ odds)
        rw [div_le_one (by linarith)]
        linarith
    refine ⟨hdef, ?_, ?_⟩
    · rw [hdef]
      have hfl : (0:ℤ) ≤ ⌊american_odds_to_probability odds * 100⌋ :=
        Int.le_floor.mpr (by push_cast; nlinarith)
      linarith [floor_le_pyRound (american_odds_to_probability odds * 100)]
    · rw [hdef]
      have hcl : ⌈american_odds_to_probability odds * 100⌉ ≤ 100 :=
        Int.ceil_le.mpr (by push_cast; nlinarith)
      linarith [pyRound_le_ceil (american_odds_to_probability odds * 100)]
  · constructor
    · unfold american_to_cents pyRound
      norm_num
    · unfold american_to_cents pyRound
      norm_num

/-- C5 (counterexample): the code realizes the round-trip through an integer
price-in-cents; at odds `130` the probability `100/230` rounds to 43 cents,
and `cents_to_american 43 = 133`, which misses `130` by 3, violating the
claimed ±1 bound. -/
theorem odds_roundtrip_counterexample :
    cents_to_american (american_to_cents 130) = 133 ∧
    ¬(|cents_to_american (american_to_cents 130) - 130| ≤ 1) := by
  have h43 : american_to_cents 130 = 43 := by
    unfold american_to_cents pyRound
    norm_num
  have h133 : cents_to_american 43 = 133 := by
    unfold cents_to_american prob_to_american pyRound
    norm_num
  rw [h43, h133]
  norm_num

/-- C5 (amended): the round-trip is exact at the probability level: for odds
`o ≤ -100` or `o ≥ 101`, applying the probability→odds rounding formula of
`cents_to_american` to the exact probability `american_odds_to_probability o`
recovers `o` exactly.  (`o = 100` must be excluded: its probability is `1/2`,
which the favorite branch maps to `-100`; and the rounding to integer cents
inside the actual `american_to_cents`/`cents_to_american` composition breaks
the ±1 bound, see the counterexample.) -/
theorem odds_prob_roundtrip_exact :
    (∀ o : ℤ, o ≤ -100 ∨ 101 ≤ o →
      prob_to_american (american_odds_to_probability o) = o) ∧
    prob_to_american (american_odds_to_probability 100) = -100 := by
  constructor
  · rintro o (ho | ho)
    · have hlt : o < 0 := by omega
      have ha : (0:ℚ) < ((-o : ℤ) : ℚ) := by
        exact_mod_cast (by omega : (0:ℤ) < -o)
      have ha100 : (100:ℚ) ≤ ((-o : ℤ) : ℚ) := by
        exact_mod_cast (by omega : (100:ℤ) ≤ -o)
      unfold american_odds_to_probability
      rw [if_pos hlt]
      unfold prob_to_american
      have hden : (0:ℚ) < ((-o : ℤ) : ℚ) + 100 := by linarith
      have hP : ((-o : ℤ) : ℚ) / (((-o : ℤ) : ℚ) + 100) ≥ 1/2 := by
        rw [ge_iff_le, div_le_div_iff (by norm_num) hden]
        linarith
      rw [if_pos hP]
      have hne : ((-o : ℤ) : ℚ) + 100 ≠ 0 := ne_of_gt hden
      have hb : ((o : ℤ) : ℚ) ≤ -100 := by exact_mod_cast ho
      have hne' : -((o : ℤ) : ℚ) + 100 ≠ 0 := by
        intro hc
        linarith
      have hne2 : (10000 : ℚ) - ((o : ℤ) : ℚ) * 100 ≠ 0 := by
        intro hc
        linarith
      have h1 : 1 - ((-o : ℤ) : ℚ) / (((-o : ℤ) : ℚ) + 100) =
          100 / (((-o : ℤ) : ℚ) + 100) := by
        push_cast
        field_simp
      have hexpr : -100 * (((-o : ℤ) : ℚ) / (((-o : ℤ) : ℚ) + 100)) /
          (1 - ((-o : ℤ) : ℚ) / (((-o : ℤ) : ℚ) + 100)) = ((o : ℤ) : ℚ) := by
        rw [h1]
        push_cast
        field_simp
      rw [hexpr, pyRound_intCast]
    · have hnlt : ¬(o < 0) := by omega
      have ha : (101:ℚ) ≤ ((o : ℤ) : ℚ) := by exact_mod_cast ho
      unfold american_odds_to_probability
      rw [if_neg hnlt]
      unfold prob_to_american
      have hden : (0:ℚ) < ((o : ℤ) : ℚ) + 100 := by linarith
      have hP : ¬(100 / (((o : ℤ) : ℚ) + 100) ≥ 1/2) := by
        rw [ge_iff_le, not_le, div_lt_div_iff hden (by norm_num)]
        linarith
      rw [if_neg hP]
      have hexpr : 100 * (1 - 100 / (((o : ℤ) : ℚ) + 100)) /
          (100 / (((o : ℤ) : ℚ) + 100)) = ((o : ℤ) : ℚ) := by
        have hne : ((o : ℤ) : ℚ) + 100 ≠ 0 := ne_of_gt hden
        field_simp
      rw [hexpr, pyRound_intCast]
  · unfold american_odds_to_probability prob_to_american pyRound
    norm_num

/-- C5 (witness): the exact probability-level round-trip at odds `-150`. -/
theorem odds_prob_roundtrip_exact_witness :
    prob_to_american (american_odds_to_probability (-150)) = -150 :=
  odds_prob_roundtrip_exact.1 (-150) (Or.inl (by norm_num))

/-- C7: the maker fee is non-decreasing in the contract count for a fixed
price in `(0,100)`; for a fixed non-negative contract count it is maximal at
price 50 and non-increasing as `|price - 50|` grows. -/
theorem maker_fee_monotonicity :
    (∀ (p c c' : ℤ), 0 < p → p < 100 → c ≤ c' →
        maker_fee_cents p c ≤ maker_fee_cents p c') ∧
    (∀ (p c : ℤ), 0 ≤ c → 0 < p → p < 100 →
        maker_fee_cents p c ≤ maker_fee_cents 50 c) ∧
    (∀ (p q c : ℤ), 0 ≤ c → 0 < p → p < 100 → 0 < q → q < 100 →
        |p - 50| ≤ |q - 50| → maker_fee_cents q c ≤ maker_fee_cents p c) := by
  refine ⟨?_, ?_, ?_⟩
  · intro p c c' hp0 hp100 hcc
    rw [maker_fee_cents_eq, maker_fee_cents_eq]
    have hp0Q : (0:ℚ) < (p:ℚ) := by exact_mod_cast hp0
    have hp100Q : ((p:ℚ)) < 100 := by exact_mod_cast hp100
    have hccQ : ((c:ℚ)) ≤ (c':ℚ) := by exact_mod_cast hcc
    have hpp : (0:ℚ) < 7 * (p:ℚ) * (100 - (p:ℚ)) :=
      mul_pos (mul_pos (by norm_num) hp0Q) (by linarith)
    have hAB : 7 * (c:ℚ) * (p:ℚ) * (100 - (p:ℚ)) ≤
        7 * (c':ℚ) * (p:ℚ) * (100 - (p:ℚ)) := by
      nlinarith [mul_nonneg (by linarith : (0:ℚ) ≤ (c':ℚ) - (c:ℚ)) hpp.le]
    exact Int.ceil_mono (by gcongr)
  · intro p c hc hp0 hp100
    rw [maker_fee_cents_eq, maker_fee_cents_eq]
    have hp0Q : (0:ℚ) < (p:ℚ) := by exact_mod_cast hp0
    have hcQ : (0:ℚ) ≤ (c:ℚ) := by exact_mod_cast hc
    have hAB : 7 * (c:ℚ) * (p:ℚ) * (100 - (p:ℚ)) ≤
        7 * (c:ℚ) * ((50:ℤ):ℚ) * (100 - ((50:ℤ):ℚ)) := by
      push_cast
      nlinarith [mul_nonneg hcQ (sq_nonneg ((p:ℚ) - 50))]
    exact Int.ceil_mono (by gcongr)
  · intro p q c hc hp0 hp100 hq0 hq100 habs
    rw [maker_fee_cents_eq, maker_fee_cents_eq]
    have hcQ : (0:ℚ) ≤ (c:ℚ) := by exact_mod_cast hc
    have habsQ : |(p:ℚ) - 50| ≤ |(q:ℚ) - 50| := by
      have := habs
      push_cast at this ⊢
      exact_mod_cast this
    have hsq := mul_self_le_mul_self (abs_nonneg ((p:ℚ) - 50)) habsQ
    rw [abs_mul_abs_self, abs_mul_abs_self] at hsq
    have hAB : 7 * (c:ℚ) * (q:ℚ) * (100 - (q:ℚ)) ≤
        7 * (c:ℚ) * (p:ℚ) * (100 - (p:ℚ)) := by
      nlinarith [mul_nonneg hcQ (sub_nonneg.mpr hsq)]
    exact Int.ceil_mono (by gcongr)

/-- C7 (witness): concrete instances of all three monotonicity parts. -/
theorem maker_fee_monotonicity_witness :
    maker_fee_cents 30 5 ≤ maker_fee_cents 30 7 ∧
    maker_fee_cents 30 5 ≤ maker_fee_cents 50 5 ∧
    maker_fee_cents 20 5 ≤ maker_fee_cents 40 5 :=
  ⟨maker_fee_monotonicity.1 30 5 7 (by norm_num) (by norm_num) (by norm_num),
   maker_fee_monotonicity.2.1 30 5 (by norm_num) (by norm_num) (by norm_num),
   maker_fee_monotonicity.2.2 40 20 5 (by norm_num) (by norm_num)
     (by norm_num) (by norm_num) (by norm_num) (by norm_num)⟩

/-- C6: the top-of-book readers aggregate liquidity by summation: the
per-price map holds the summed quantity of all rows at each price, the
reported top-of-book liquidity is the summed quantity at the top price, and
on the ladder `[[55,10],[55,20]]` they report quantity 30 at price 55 (not
10, not 20). -/
theorem liquidity_aggregation :
    (∀ (orderbook : Orderbook) (p : ℤ),
      (get_yes_bid_top_and_liquidity orderbook).2.2 p = qty_sum_at orderbook.yes p) ∧
    (∀ (orderbook : Orderbook) (t : ℤ),
      (get_yes_bid_top_and_liquidity orderbook).1 = some t →
      (get_yes_bid_top_and_liquidity orderbook).2.1 = some (qty_sum_at orderbook.yes t)) ∧
    (∀ (orderbook : Orderbook) (t : ℤ),
      ladder_top orderbook.no = some t → t ≠ 0 →
      (get_yes_ask_prices_and_liquidity orderbook).2.2.1 =
        some (qty_sum_at orderbook.no t)) ∧
    (get_yes_bid_top_and_liquidity ⟨[[55,10],[55,20]], []⟩).1 = some 55 ∧
    (get_yes_bid_top_and_liquidity ⟨[[55,10],[55,20]], []⟩).2.1 = some 30 ∧
    (get_yes_ask_prices_and_liquidity ⟨[], [[55,10],[55,20]]⟩).2.2.1 = some 30 := by
  refine ⟨?_, ?_, ?_, by decide, by decide, by decide⟩
  · intro ob p
    unfold get_yes_bid_top_and_liquidity
    rcases h : ladder_top ob.yes with _ | t <;> simp [ladder_by_price_eq]
  · intro ob t ht
    unfold get_yes_bid_top_and_liquidity at *
    rcases h : ladder_top ob.yes with _ | t'
    · rw [h] at ht
      simp at ht
    · rw [h] at ht
      simp only [Option.some_inj] at ht
      subst ht
      simp [ladder_by_price_eq]
  · intro ob t ht ht0
    unfold get_yes_ask_prices_and_liquidity
    rw [ht]
    simp [ht0, ladder_by_price_eq]

/-- C6 (witness): the top liquidity on the duplicate-price ladder is the
summed quantity at the top price. -/
theorem liquidity_aggregation_witness :
    (get_yes_bid_top_and_liquidity ⟨[[55,10],[55,20]], []⟩).2.1 =
      some (qty_sum_at [[55,10],[55,20]] 55) :=
  liquidity_aggregation.2.1 ⟨[[55,10],[55,20]], []⟩ 55 (by decide)

/-- C8 (counterexample): on the orderbook with YES top bid 39 and NO top bid
60 the implied YES ask is `100 - 60 = 40`; the queue-jump price `39 + 1 = 40`
meets that ask.  The spread reader discards it (`crossed`), but the moneyline
exposure reader `get_market_yes_exposure_data` has no crossing check and
emits the queue-jump price 40 anyway, so the claim quantified over every
orderbook side is false for the cited exposure reader. -/
theorem queue_jump_crossing_counterexample :
    (get_market_yes_exposure_data ⟨[[39,10]], [[60,5]]⟩).yes_bid_top_p1_c = some 40 ∧
    (get_no_bid_top_and_liquidity ⟨[[39,10]], [[60,5]]⟩).1 = some 60 ∧
    ¬((40:ℤ) < 100 - 60) ∧
    (get_spread_orderbook_data ⟨[[39,10]], [[60,5]]⟩ "YES").tob_p1_bid_cents = none ∧
    (get_spread_orderbook_data ⟨[[39,10]], [[60,5]]⟩ "YES").crossed = some true :=
  ⟨by decide, by decide, by decide, by decide, by decide⟩

/-- C8 (amended): queue-jump liquidity is always reported absent and the
queue-jump price is `top + 1` only when `top < 99`, in both readers; the
discard-on-cross (with the `crossed` flag) holds in the spread orderbook
reader `get_spread_orderbook_data` for either side, while the moneyline
exposure reader `get_market_yes_exposure_data` performs no crossing check. -/
theorem queue_jump_behavior :
    (∀ (orderbook : Orderbook) (side : String),
      (get_spread_orderbook_data orderbook side).tob_p1_liq = none ∧
      (get_market_yes_exposure_data orderbook).yes_bid_top_p1_liq = none) ∧
    (∀ (orderbook : Orderbook) (t : ℤ),
      (get_yes_bid_top_and_liquidity orderbook).1 = some t →
      (get_market_yes_exposure_data orderbook).yes_bid_top_p1_c =
        (if t < 99 then some (t + 1) else none)) ∧
    (∀ (orderbook : Orderbook) (t nt : ℤ),
      (get_yes_bid_top_and_liquidity orderbook).1 = some t →
      (get_no_bid_top_and_liquidity orderbook).1 = some nt →
      (t < 99 ∧ t + 1 < 100 - nt →
        (get_spread_orderbook_data orderbook "YES").tob_p1_bid_cents = some (t + 1) ∧
        (get_spread_orderbook_data orderbook "YES").crossed = some false) ∧
      (t < 99 ∧ 100 - nt ≤ t + 1 →
        (get_spread_orderbook_data orderbook "YES").tob_p1_bid_cents = none ∧
        (get_spread_orderbook_data orderbook "YES").crossed = some true) ∧
      (99 ≤ t →
        (get_spread_orderbook_data orderbook "YES").tob_p1_bid_cents = none ∧
        (get_spread_orderbook_data orderbook "YES").crossed = some false)) ∧
    (∀ (orderbook : Orderbook) (t yt : ℤ),
      (get_no_bid_top_and_liquidity orderbook).1 = some t →
      (get_yes_bid_top_and_liquidity orderbook).1 = some yt →
      (t < 99 ∧ t + 1 < 100 - yt →
        (get_spread_orderbook_data orderbook "NO").tob_p1_bid_cents = some (t + 1) ∧
        (get_spread_orderbook_data orderbook "NO").crossed = some false) ∧
      (t < 99 ∧ 100 - yt ≤ t + 1 →
        (get_spread_orderbook_data orderbook "NO").tob_p1_bid_cents = none ∧
        (get_spread_orderbook_data orderbook "NO").crossed = some true) ∧
      (99 ≤ t →
        (get_spread_orderbook_data orderbook "NO").tob_p1_bid_cents = none ∧
        (get_spread_orderbook_data orderbook "NO").crossed = some false)) := by
  have hyes : py_upper "YES" = "YES" := by decide
  have hno : py_upper "NO" = "NO" := by decide
  have hne : ("NO" : String) ≠ "YES" := by decide
  refine ⟨?_, ?_, ?_, ?_⟩
  · intro ob side
    constructor
    · simp only [get_spread_orderbook_data]
      split_ifs <;>
        (try rfl) <;>
        (rcases h1 : get_yes_bid_top_and_liquidity ob with ⟨_ | t, b2, b3⟩ <;>
         rcases h2 : get_no_bid_top_and_liquidity ob with ⟨_ | nt, c2, c3⟩ <;>
         simp)
    · unfold get_market_yes_exposure_data
      rcases h1 : get_yes_bid_top_and_liquidity ob with ⟨_ | t, b2, b3⟩ <;> simp
  · intro ob t ht
    unfold get_market_yes_exposure_data
    rcases h1 : get_yes_bid_top_and_liquidity ob with ⟨b1, b2, b3⟩
    rw [h1] at ht
    simp only at ht
    subst ht
    simp
  · intro ob t nt ht hnt
    have hmain : ∀ r : SpreadTobData,
        r = get_spread_orderbook_data ob "YES" →
        (t < 99 ∧ t + 1 < 100 - nt →
          r.tob_p1_bid_cents = some (t + 1) ∧ r.crossed = some false) ∧
        (t < 99 ∧ 100 - nt ≤ t + 1 →
          r.tob_p1_bid_cents = none ∧ r.crossed = some true) ∧
        (99 ≤ t → r.tob_p1_bid_cents = none ∧ r.crossed = some false) := by
      intro r hr
      simp only [get_spread_orderbook_data, hyes, true_or, if_true] at hr
      rcases h1 : get_yes_bid_top_and_liquidity ob with ⟨b1, b2, b3⟩
      rcases h2 : get_no_bid_top_and_liquidity ob with ⟨c1, c2, c3⟩
      rw [h1] at ht hr
      rw [h2] at hnt hr
      simp only at ht hnt
      subst ht
      subst hnt
      dsimp only at hr
      refine ⟨?_, ?_, ?_⟩
      · rintro ⟨h99, hcr⟩
        rw [if_pos h99] at hr
        simp only [Option.map_some'] at hr
        rw [if_neg (by omega : ¬(t + 1 ≥ 100 - nt))] at hr
        rw [hr]
        exact ⟨rfl, rfl⟩
      · rintro ⟨h99, hcr⟩
        rw [if_pos h99] at hr
        simp only [Option.map_some'] at hr
        rw [if_pos (by omega : t + 1 ≥ 100 - nt)] at hr
        rw [hr]
        exact ⟨rfl, rfl⟩
      · intro h99
        rw [if_neg (by omega : ¬(t < 99))] at hr
        simp only [Option.map_some'] at hr
        rw [hr]
        exact ⟨rfl, rfl⟩
    exact hmain _ rfl
  · intro ob t yt ht hyt
    have hmain : ∀ r : SpreadTobData,
        r = get_spread_orderbook_data ob "NO" →
        (t < 99 ∧ t + 1 < 100 - yt →
          r.tob_p1_bid_cents = some (t + 1) ∧ r.crossed = some false) ∧
        (t < 99 ∧ 100 - yt ≤ t + 1 →
          r.tob_p1_bid_cents = none ∧ r.crossed = some true) ∧
        (99 ≤ t → r.tob_p1_bid_cents = none ∧ r.crossed = some false) := by
      intro r hr
      simp only [get_spread_orderbook_data, hno, hne, if_false, or_true,
        if_true] at hr
      rcases h1 : get_yes_bid_top_and_liquidity ob with ⟨b1, b2, b3⟩
      rcases h2 : get_no_bid_top_and_liquidity ob with ⟨c1, c2, c3⟩
      rw [h1] at hyt hr
      rw [h2] at ht hr
      simp only at ht hyt
      subst ht
      subst hyt
      dsimp only at hr
      refine ⟨?_, ?_, ?_⟩
      · rintro ⟨h99, hcr⟩
        rw [if_pos h99] at hr
        simp only [Option.map_some'] at hr
        rw [if_neg (by omega : ¬(t + 1 ≥ 100 - yt))] at hr
        rw [hr]
        exact ⟨rfl, rfl⟩
      · rintro ⟨h99, hcr⟩
        rw [if_pos h99] at hr
        simp only [Option.map_some'] at hr
        rw [if_pos (by omega : t + 1 ≥ 100 - yt)] at hr
        rw [hr]
        exact ⟨rfl, rfl⟩
      · intro h99
        rw [if_neg (by omega : ¬(t < 99))] at hr
        simp only [Option.map_some'] at hr
        rw [hr]
        exact ⟨rfl, rfl⟩
    exact hmain _ rfl

/-- C8 (witness): a concrete non-crossing queue-jump on the spread reader. -/
theorem queue_jump_behavior_witness :
    (get_spread_orderbook_data ⟨[[39,10]], [[55,5]]⟩ "YES").tob_p1_bid_cents =
      some (39 + 1) ∧
    (get_spread_orderbook_data ⟨[[39,10]], [[55,5]]⟩ "YES").crossed = some false :=
  (queue_jump_behavior.2.2.1 ⟨[[39,10]], [[55,5]]⟩ 39 55 (by decide)
    (by decide)).1 (by omega)

/-- C2: for a positive consensus spread (POV team is the underdog) the
selectors choose only markets whose `market_team_code` is the opponent's code
and label the trade side NO; for a negative spread they choose only markets
with the POV team's own code and label the side YES. -/
theorem spread_routing_sides :
    ∀ (team_spread : ℚ) (team_code opponent_code : String)
      (spread_markets : List SpreadMarket) (count : ℕ),
      (0 < team_spread →
        (∀ x ∈ select_closest_strikes_for_team_spread team_spread team_code
            opponent_code spread_markets count,
          x.1.market_team_code = some opponent_code ∧ x.2 = "NO") ∧
        (map_team_spread_to_market_and_side team_spread team_code opponent_code
            spread_markets).2 = "NO" ∧
        (∀ m, (map_team_spread_to_market_and_side team_spread team_code
            opponent_code spread_markets).1 = some m →
          m.market_team_code = some opponent_code)) ∧
      (team_spread < 0 →
        (∀ x ∈ select_closest_strikes_for_team_spread team_spread team_code
            opponent_code spread_markets count,
          x.1.market_team_code = some team_code ∧ x.2 = "YES") ∧
        (map_team_spread_to_market_and_side team_spread team_code opponent_code
            spread_markets).2 = "YES" ∧
        (∀ m, (map_team_spread_to_market_and_side team_spread team_code
            opponent_code spread_markets).1 = some m →
          m.market_team_code = some team_code)) := by
  intro ts tc oc ms count
  constructor
  · intro hpos
    have hneg : ¬(ts < 0) := by linarith
    refine ⟨?_, ?_, ?_⟩
    · intro x hx
      have h := select_mem_routing ts tc oc ms count x hx
      rw [if_neg hneg, if_neg hneg] at h
      exact h
    · have h := (map_routing ts tc oc ms).1
      rw [if_neg hneg] at h
      exact h
    · intro m hm
      have h := (map_routing ts tc oc ms).2 m hm
      rw [if_neg hneg] at h
      exact h
  · intro hneg
    refine ⟨?_, ?_, ?_⟩
    · intro x hx
      have h := select_mem_routing ts tc oc ms count x hx
      rw [if_pos hneg, if_pos hneg] at h
      exact h
    · have h := (map_routing ts tc oc ms).1
      rw [if_pos hneg] at h
      exact h
    · intro m hm
      have h := (map_routing ts tc oc ms).2 m hm
      rw [if_pos hneg] at h
      exact h

/-- C2 (witness): spread `+4.5` for team `AAA` against `BBB` routes to the
NO side. -/
theorem spread_routing_sides_witness :
    (map_team_spread_to_market_and_side (9/2) "AAA" "BBB"
      [⟨"KXNBA", "spread title", some (13/2), some "BBB"⟩]).2 = "NO" :=
  ((spread_routing_sides (9/2) "AAA" "BBB"
    [⟨"KXNBA", "spread title", some (13/2), some "BBB"⟩] 2).1 (by norm_num)).2.1

/-- C3: both strike selectors return their candidate set (the over-labeled
markets with a fallback to all markets for totals; the team-routed markets
for spreads), restricted to candidates with a parseable strike, sorted
ascending by `(|strike - target|, strike)` and truncated to the first
`count` entries; with strikes `[6.0, 6.5, 7.0]` and target `6.25` the two
selected are `[6.0, 6.5]` (equidistant tie broken toward the lower strike);
and an empty candidate set or one without parseable strikes yields `[]`. -/
theorem closest_strike_selection :
    (∀ (S : ℚ) (ms : List TotalsMarket) (count : ℕ),
      ∃ l : List (ℚ × ℚ × TotalsMarket),
        l.Perm (markets_with_distance TotalsMarket.parsed_strike S
          (over_candidates ms)) ∧
        List.Pairwise (fun a b => key_le a b = true) l ∧
        select_closest_over_strikes S ms count =
          (l.take count).map (fun x => x.2.2)) ∧
    (∀ (ts : ℚ) (tc oc : String) (ms : List SpreadMarket) (count : ℕ),
      ∃ l : List (ℚ × ℚ × SpreadMarket),
        l.Perm (markets_with_distance SpreadMarket.parsed_strike |ts|
          (ms.filter (fun m => m.market_team_code =
            some (if ts < 0 then tc else oc)))) ∧
        List.Pairwise (fun a b => key_le a b = true) l ∧
        select_closest_strikes_for_team_spread ts tc oc ms count =
          (l.take count).map (fun x => (x.2.2, if ts < 0 then "YES" else "NO"))) ∧
    (select_closest_over_strikes (25/4) [demo_over_6, demo_over_65, demo_over_7] 2 =
      [demo_over_6, demo_over_65]) ∧
    (∀ (S : ℚ) (count : ℕ), select_closest_over_strikes S [] count = []) ∧
    (∀ (S : ℚ) (ms : List TotalsMarket) (count : ℕ),
      (∀ m ∈ ms, m.parsed_strike = none) →
      select_closest_over_strikes S ms count = []) ∧
    (∀ (ts : ℚ) (tc oc : String) (count : ℕ),
      select_closest_strikes_for_team_spread ts tc oc [] count = []) ∧
    (∀ (ts : ℚ) (tc oc : String) (ms : List SpreadMarket) (count : ℕ),
      (∀ m ∈ ms, m.parsed_strike = none) →
      select_closest_strikes_for_team_spread ts tc oc ms count = []) := by
  refine ⟨?_, ?_, ?_, ?_, ?_, ?_, ?_⟩
  · intro S ms count
    refine ⟨(markets_with_distance TotalsMarket.parsed_strike S
        (over_candidates ms)).mergeSort key_le,
      List.mergeSort_perm _ _,
      List.sorted_mergeSort key_le_trans key_le_total _, ?_⟩
    rcases ms with _ | ⟨a, l⟩
    · simp [select_closest_over_strikes, over_candidates, markets_with_distance,
        List.mergeSort]
    · simp only [select_closest_over_strikes]
      rw [if_neg (by simp)]
  · intro ts tc oc ms count
    exact ⟨(markets_with_distance SpreadMarket.parsed_strike |ts|
        (ms.filter (fun m => m.market_team_code =
          some (if ts < 0 then tc else oc)))).mergeSort key_le,
      List.mergeSort_perm _ _,
      List.sorted_mergeSort key_le_trans key_le_total _, rfl⟩
  · have hlow : py_lower "over" = "over" := by decide
    have hdirs : ∀ m ∈ [demo_over_6, demo_over_65, demo_over_7],
        py_lower m.direction = "over" := by
      intro m hm
      fin_cases hm <;> exact hlow
    have e1 : |(6:ℚ) - 25/4| = 1/4 := by
      rw [abs_of_nonpos (by norm_num)]
      norm_num
    have e2 : |(13/2:ℚ) - 25/4| = 1/4 := by
      rw [abs_of_nonneg (by norm_num)]
      norm_num
    have e3 : |(7:ℚ) - 25/4| = 3/4 := by
      rw [abs_of_nonneg (by norm_num)]
      norm_num
    have hmd : markets_with_distance TotalsMarket.parsed_strike (25/4)
        [demo_over_6, demo_over_65, demo_over_7] =
        [((1:ℚ)/4, (6:ℚ), demo_over_6), ((1:ℚ)/4, (13:ℚ)/2, demo_over_65),
          ((3:ℚ)/4, (7:ℚ), demo_over_7)] := by
      simp [markets_with_distance, demo_over_6, demo_over_65, demo_over_7,
        e1, e2, e3]
    have hpair : List.Pairwise (fun a b => key_le a b = true)
        [((1:ℚ)/4, (6:ℚ), demo_over_6), ((1:ℚ)/4, (13:ℚ)/2, demo_over_65),
          ((3:ℚ)/4, (7:ℚ), demo_over_7)] := by
      simp [key_le]
      norm_num
    simp only [select_closest_over_strikes]
    rw [if_neg (by simp), over_candidates_all_over _ hdirs, hmd,
      List.mergeSort_of_sorted hpair]
    rfl
  · intro S count
    simp [select_closest_over_strikes]
  · intro S ms count hnone
    rcases ms with _ | ⟨a, l⟩
    · simp [select_closest_over_strikes]
    · simp only [select_closest_over_strikes]
      rw [if_neg (by simp)]
      have hmd : markets_with_distance TotalsMarket.parsed_strike S
          (over_candidates (a :: l)) = [] := by
        simp only [markets_with_distance]
        rw [List.filterMap_eq_nil_iff]
        intro m hm
        rw [hnone m (over_candidates_mem hm)]
        rfl
      rw [hmd]
      simp [List.mergeSort]
  · intro ts tc oc count
    simp [select_closest_strikes_for_team_spread, markets_with_distance,
      List.mergeSort]
  · intro ts tc oc ms count hnone
    simp only [select_closest_strikes_for_team_spread]
    have hmd : markets_with_distance SpreadMarket.parsed_strike |ts|
        (ms.filter (fun m => m.market_team_code =
          some (if ts < 0 then tc else oc))) = [] := by
      simp only [markets_with_distance]
      rw [List.filterMap_eq_nil_iff]
      intro m hm
      rw [hnone m (List.mem_filter.mp hm).1]
      rfl
    rw [hmd]
    simp [List.mergeSort]

/-- C3 (witness): a candidate set without a parseable strike selects `[]`. -/
theorem closest_strike_selection_witness :
    select_closest_over_strikes 5 [⟨"TX", "no strike", none, "over"⟩] 2 = [] :=
  closest_strike_selection.2.2.2.2.1 5
    [⟨"TX", "no strike", none, "over"⟩] 2
    (by intro m hm; fin_cases hm; rfl)

end NbaScanner
